import Mathlib

/-!
Verification of the VideoVault metadata/upload pipeline (`src/app.py`).

The Python strings are modelled as `List Char` (`Str`), so that every
operation is structural and evaluates inside the kernel.  The flat JSON
store, the upload directory and the thumbnail directory together form the
persistent filesystem state (`FS`); every route handler is embedded as a
pure function from its request data and an `FS` to a response value and
the resulting `FS`.  External collaborators (the werkzeug sanitizer, the
cv2 frame decoder, `datetime.now`, the date formatter used for
`pretty_date`) enter as explicit parameters, universally quantified in
the theorems.
-/

abbrev Str := List Char

/-- Python `str.lower` (ASCII range, which covers every string the app
compares; `Char.toLower` lowers exactly the ASCII uppercase letters). -/
def lower (s : Str) : Str := s.map Char.toLower

/-- Python `str.strip()`: remove leading and trailing whitespace. -/
def strip (s : Str) : Str :=
  ((s.dropWhile Char.isWhitespace).reverse.dropWhile Char.isWhitespace).reverse

/-- Python `needle in hay` on strings: contiguous substring test. -/
def strContains (hay needle : Str) : Bool := decide (needle <:+: hay)

/-- One record of `videos.json`, as built at upload time (app.py:154-163). -/
structure VideoRecord where
  filename : Str
  title : Str
  description : Str
  playlist : Str
  thumbnail : Str
  hearts : Nat
  views : Nat
  uploaded_at : Str
deriving DecidableEq

/-- The persistent state the app touches: the two directories (as the
finite list of filenames present) and the JSON metadata store. -/
structure FS where
  uploads : List Str
  thumbs : List Str
  store : List VideoRecord
deriving DecidableEq

/-- `ALLOWED_EXTENSIONS = {"mp4", "webm", "mov"}` (app.py:14). -/
def ALLOWED_EXTENSIONS : List Str := ["mp4".data, "webm".data, "mov".data]

/-- `MAX_FILE_SIZE_MB = 500` (app.py:15); used in an exact-rational model
of the float comparison `size_mb > MAX_FILE_SIZE_MB` (division of a byte
count below 2^53 by the power of two 1024*1024 is exact in binary
floating point, so the rational model coincides with the Python float
comparison). -/
def MAX_FILE_SIZE_MB : ℚ := 500

/-- Characters strictly after the last `'.'`, i.e. `p.rsplit(".", 1)[1]`
when `p` contains a dot (the only way app.py calls it). -/
def rsplitDotTail (p : Str) : Str :=
  (p.reverse.takeWhile (fun c => !(c == '.'))).reverse

/-- Characters strictly before the last `'.'`, i.e. `p.rsplit(".", 1)[0]`;
the whole string when there is no dot. -/
def rsplitDotHead (p : Str) : Str :=
  if p.contains '.' then ((p.reverse.dropWhile (fun c => !(c == '.'))).drop 1).reverse
  else p

/-- `allowed_file` (app.py:28-29): the name contains a dot and the
lowercased text after the last dot is in the allow-set. -/
def allowed_file (filename : Str) : Bool :=
  filename.contains '.' && ALLOWED_EXTENSIONS.contains (lower (rsplitDotTail filename))

/-- `os.path.splitext` for names without path separators (the app only
applies it to a sanitized basename): split at the last dot unless every
character before that dot is itself a dot. -/
def splitext (p : Str) : Str × Str :=
  if p.contains '.' then
    let head := rsplitDotHead p
    let ext := '.' :: rsplitDotTail p
    if head.any (fun c => !(c == '.')) then (head, ext) else (p, [])
  else (p, [])

/-- Decimal digits of `n`, as produced by the f-string `f"{counter}"`. -/
def decimalDigits (n : Nat) : Str := Nat.toDigits 10 n

/-- One candidate name of the collision loop: `f"{base}_{counter}{ext}"`
(app.py:124). -/
def candName (base ext : Str) (counter : Nat) : Str :=
  base ++ '_' :: decimalDigits counter ++ ext

/-- The collision `while` loop (app.py:122-125).  The Python loop runs
until the current name is absent from the upload directory; it is
embedded with an explicit iteration bound.  With the bound
`uploads.length + 1` used by `resolve_collision` the two agree: the
candidates for distinct counters are distinct, so by the time the bound
is reached the loop has provably passed a free name (see
`resolve_collision_not_mem`). -/
def findFreeName (uploads : List Str) (base ext : Str) :
    Nat → Nat → Str → Str
  | 0, _, filename => filename
  | fuel + 1, counter, filename =>
    if uploads.contains filename then
      findFreeName uploads base ext fuel (counter + 1) (candName base ext counter)
    else filename

/-- Collision resolution of `upload` (app.py:121-125): split the sanitized
name, then try `base_1`, `base_2`, … while the current name exists. -/
def resolve_collision (uploads : List Str) (sanitized : Str) : Str :=
  let p := splitext sanitized
  findFreeName uploads p.1 p.2 (uploads.length + 1) 1 sanitized

/-- `filename.rsplit(".", 1)[0] + ".jpg"` (app.py:147). -/
def thumbnailName (filename : Str) : Str := rsplitDotHead filename ++ ".jpg".data

/-- `generate_thumbnail` (app.py:47-55): `frameOk` is the outcome of the
external cv2 first-frame read; on success the thumbnail file is written
to the thumbnail directory, on failure nothing is written. -/
def generate_thumbnail (frameOk : Bool) (thumbName : Str) (thumbs : List Str) :
    Bool × List Str :=
  if frameOk then (true, thumbs ++ [thumbName]) else (false, thumbs)

/-- The data of one `POST /upload` request. -/
structure UploadRequest where
  hasFile : Bool
  filename : Str
  sizeBytes : Nat
  title : Str
  description : Str
  playlist : Str
deriving DecidableEq

/-- The possible responses of `POST /upload`. -/
inductive UploadOutcome where
  | noFile
  | noSelection
  | fileTooLarge
  | invalidType
  | redirectIndex
deriving DecidableEq

/-- `upload`, POST branch (app.py:109-169).  `secure` is the external
werkzeug `secure_filename`, `frameOk` the cv2 decode outcome, `now` the
`datetime.now().isoformat()` timestamp. -/
def upload (secure : Str → Str) (frameOk : Bool) (now : Str)
    (req : UploadRequest) (fs : FS) : UploadOutcome × FS :=
  if !req.hasFile then (.noFile, fs)
  else if req.filename = [] then (.noSelection, fs)
  else if allowed_file req.filename then
    let filename := resolve_collision fs.uploads (secure req.filename)
    if (req.sizeBytes : ℚ) / (1024 * 1024) > MAX_FILE_SIZE_MB then (.fileTooLarge, fs)
    else
      let fs1 : FS := { fs with uploads := fs.uploads ++ [filename] }
      let title0 := strip req.title
      let title := if title0 = [] then filename else title0
      let tname := thumbnailName filename
      let tres := generate_thumbnail frameOk tname fs1.thumbs
      let thumb := if tres.1 then tname else "default.jpg".data
      let fs2 : FS := { fs1 with thumbs := tres.2 }
      (.redirectIndex,
        { fs2 with
            store := fs2.store ++
              [{ filename := filename, title := title,
                 description := strip req.description,
                 playlist := strip req.playlist, thumbnail := thumb,
                 hearts := 0, views := 0, uploaded_at := now }] })
  else (.invalidType, fs)

/-- The two counter fields of `heart` and `view`. -/
inductive CounterField where
  | hearts
  | views
deriving DecidableEq

/-- `v["hearts"] += 1` respectively `v["views"] += 1`. -/
def bumpField : CounterField → VideoRecord → VideoRecord
  | .hearts, v => { v with hearts := v.hearts + 1 }
  | .views, v => { v with views := v.views + 1 }

/-- Read the counter selected by `fld`. -/
def getField : CounterField → VideoRecord → Nat
  | .hearts, v => v.hearts
  | .views, v => v.views

/-- The lookup loop shared by `heart` (app.py:178-181) and `view`
(app.py:191-194): bump the field of the first record with matching
filename and stop; fall through silently when nothing matches. -/
def increment (fld : CounterField) (fn : Str) : List VideoRecord → List VideoRecord
  | [] => []
  | v :: rest =>
    if v.filename = fn then bumpField fld v :: rest
    else v :: increment fld fn rest

/-- `heart` (app.py:174-184): run the lookup loop, persist the store. -/
def heart (fn : Str) (fs : FS) : FS :=
  { fs with store := increment .hearts fn fs.store }

/-- `view` (app.py:187-197): run the lookup loop, persist the store. -/
def view (fn : Str) (fs : FS) : FS :=
  { fs with store := increment .views fn fs.store }

/-- One step of the `delete` partition loop (app.py:207-211): a matching
record becomes (the latest value of) `deleted_video`, any other record is
appended to `new_list`. -/
def deleteStep (fn : Str) (st : Option VideoRecord × List VideoRecord)
    (v : VideoRecord) : Option VideoRecord × List VideoRecord :=
  if v.filename = fn then (some v, st.2) else (st.1, st.2 ++ [v])

/-- The whole partition loop of `delete`: returns `deleted_video` and
`new_list`. -/
def deleteScan (fn : Str) (videos : List VideoRecord) :
    Option VideoRecord × List VideoRecord :=
  videos.foldl (deleteStep fn) (none, [])

/-- `os.remove` guarded by `os.path.exists` on a directory listing:
remove the (first) occurrence of `name` when present. -/
def removeIfExists (dir : List Str) (name : Str) : List Str :=
  if dir.contains name then dir.erase name else dir

/-- `delete` (app.py:200-226): partition the store, persist `new_list`,
remove the video file when present, and remove the matched record's
thumbnail when present and not the shared default. -/
def delete (fn : Str) (fs : FS) : FS :=
  let r := deleteScan fn fs.store
  let fs1 : FS := { fs with store := r.2 }
  let fs2 : FS := { fs1 with uploads := removeIfExists fs1.uploads fn }
  match r.1 with
  | none => fs2
  | some dv =>
    if fs2.thumbs.contains dv.thumbnail && !(dv.thumbnail = "default.jpg".data) then
      { fs2 with thumbs := fs2.thumbs.erase dv.thumbnail }
    else fs2

/-- Lexicographic-by-code-point comparison of Python strings, as used by
`list.sort` on the ISO `uploaded_at` keys and by `sorted` on playlist
names: `strLeB a b` is `a <= b`. -/
def strLeB : Str → Str → Bool
  | [], _ => true
  | _ :: _, [] => false
  | a :: as, b :: bs =>
    if a.toNat < b.toNat then true
    else if b.toNat < a.toNat then false
    else strLeB as bs

/-- The `pretty_date` attachment (app.py:66-67): the record together with
the formatted date string the template reads; `fmt` is the external
`datetime` formatter. -/
def attachDate (fmt : Str → Str) (v : VideoRecord) : VideoRecord × Str :=
  (v, fmt v.uploaded_at)

/-- The search predicate of `index` (app.py:72-75); `search` is already
lowercased by the route. -/
def searchMatch (search : Str) (v : VideoRecord) : Bool :=
  strContains (lower v.title) search || strContains (lower v.description) search ||
    strContains (lower v.filename) search

/-- The filter step of `index` (app.py:70-76): `if search:` guards the
comprehension, so an empty search keeps everything. -/
def filterStep (search : Str) (decorated : List (VideoRecord × Str)) :
    List (VideoRecord × Str) :=
  if search = [] then decorated else decorated.filter (fun p => searchMatch search p.1)

/-- The sort dispatch of `index` (app.py:79-86).  Python `list.sort` is a
stable sort by key (`reverse=True` giving the stable descending order);
`List.mergeSort` with the corresponding non-strict comparison is exactly
that stable sort. -/
def sortStep (sort : Str) (videos : List (VideoRecord × Str)) :
    List (VideoRecord × Str) :=
  if sort = "newest".data then
    videos.mergeSort (fun a b => strLeB b.1.uploaded_at a.1.uploaded_at)
  else if sort = "oldest".data then
    videos.mergeSort (fun a b => strLeB a.1.uploaded_at b.1.uploaded_at)
  else if sort = "views".data then
    videos.mergeSort (fun a b => decide (b.1.views ≤ a.1.views))
  else if sort = "hearts".data then
    videos.mergeSort (fun a b => decide (b.1.hearts ≤ a.1.hearts))
  else videos

/-- `sorted(list(set([v["playlist"] for v in videos if v.get("playlist")])))`
(app.py:88): the distinct non-empty playlist values in ascending
lexicographic order (`sorted` canonicalizes whatever order `set`
iterates in, so deduplication order is irrelevant). -/
def playlistsOf (videos : List (VideoRecord × Str)) : List Str :=
  (((videos.map (fun p => p.1.playlist)).filter (fun pl => !pl.isEmpty)).dedup).mergeSort
    strLeB

/-- `index` (app.py:58-90).  `rawSearch` is the raw `search` query
parameter (the route lowercases it), `sortArg` the `sort` parameter with
`none` for an absent parameter (`request.args.get("sort", "newest")`).
The handler renders a template and performs no store write, so the
filesystem state passes through unchanged. -/
def index (fmt : Str → Str) (rawSearch : Str) (sortArg : Option Str)
    (fs : FS) : (List (VideoRecord × Str) × List Str) × FS :=
  let search := lower rawSearch
  let sort := sortArg.getD "newest".data
  let decorated := fs.store.map (attachDate fmt)
  let filtered := filterStep search decorated
  let sorted := sortStep sort filtered
  ((sorted, playlistsOf sorted), fs)

/-- `playlist_page` (app.py:93-104): exact playlist filter, date
attachment, newest-first sort; no store write. -/
def playlist_page (fmt : Str → Str) (name : Str) (fs : FS) :
    List (VideoRecord × Str) × FS :=
  let filtered := fs.store.filter (fun v => v.playlist = name)
  let decorated := filtered.map (attachDate fmt)
  ((decorated.mergeSort (fun a b => strLeB b.1.uploaded_at a.1.uploaded_at)), fs)

/-- C3: an upload that reaches the size check with a measured size above
the 500 MB ceiling is answered with the file-too-large error and the
filesystem state — upload directory, thumbnail directory and metadata
store alike — is exactly the prior state: nothing was written. -/
theorem upload_too_large_rejected (secure : Str → Str) (frameOk : Bool)
    (now : Str) (req : UploadRequest) (fs : FS)
    (h1 : req.hasFile = true) (h2 : req.filename ≠ [])
    (h3 : allowed_file req.filename = true)
    (h4 : (req.sizeBytes : ℚ) / (1024 * 1024) > MAX_FILE_SIZE_MB) :
    upload secure frameOk now req fs = (.fileTooLarge, fs) := by
  simp [upload, h1, h2, h3, h4]

/-- Witness for C3: a 600 MB `clip.mp4` upload against the empty state is
rejected as too large and changes nothing. -/
theorem upload_too_large_rejected_witness :
    upload (fun s => s) true "2024-01-01T00:00:00".data
      { hasFile := true, filename := "clip.mp4".data,
        sizeBytes := 600 * 1024 * 1024, title := [], description := [],
        playlist := [] } ⟨[], [], []⟩ =
      (.fileTooLarge, ⟨[], [], []⟩) := by
  exact upload_too_large_rejected (fun s => s) true "2024-01-01T00:00:00".data
    _ _ rfl (by decide) (by decide) (by norm_num [MAX_FILE_SIZE_MB])

/-- C4: an upload whose (case-insensitively compared) extension fails the
`allowed_file` allow-set test is answered with the invalid-type error and
the filesystem state is exactly the prior state: no file is written and
no record is created. -/
theorem upload_bad_extension_rejected (secure : Str → Str) (frameOk : Bool)
    (now : Str) (req : UploadRequest) (fs : FS)
    (h1 : req.hasFile = true) (h2 : req.filename ≠ [])
    (h3 : allowed_file req.filename = false) :
    upload secure frameOk now req fs = (.invalidType, fs) := by
  simp [upload, h1, h2, h3]

/-- Witness for C4: uploading `notes.txt` is rejected as an invalid type
and changes nothing. -/
theorem upload_bad_extension_rejected_witness :
    upload (fun s => s) true "2024-01-01T00:00:00".data
      { hasFile := true, filename := "notes.txt".data, sizeBytes := 10,
        title := [], description := [], playlist := [] } ⟨[], [], []⟩ =
      (.invalidType, ⟨[], [], []⟩) := by
  exact upload_bad_extension_rejected (fun s => s) true
    "2024-01-01T00:00:00".data _ _ rfl (by decide) (by decide)

/-- C10: the two listing routes never write the metadata store: after any
`GET /` and any `GET /playlist/<name>` the persisted record list equals
the record list before the request. -/
theorem listing_preserves_store (fmt : Str → Str) (rawSearch : Str)
    (sortArg : Option Str) (name : Str) (fs : FS) :
    (index fmt rawSearch sortArg fs).2.store = fs.store ∧
      (playlist_page fmt name fs).2.store = fs.store :=
  ⟨rfl, rfl⟩

/-- Sample record used by concrete witnesses. -/
def recA : VideoRecord :=
  ⟨"a.mp4".data, "A".data, [], [], "a.jpg".data, 0, 0, "2024-01-01T00:00:00".data⟩

/-- Second sample record used by concrete witnesses. -/
def recB : VideoRecord :=
  ⟨"b.mp4".data, "B".data, [], [], "b.jpg".data, 2, 3, "2024-01-02T00:00:00".data⟩

/-- The counter loop leaves a store without a matching filename unchanged. -/
theorem increment_of_not_mem (fld : CounterField) (fn : Str) :
    ∀ l : List VideoRecord, (∀ v ∈ l, v.filename ≠ fn) → increment fld fn l = l := by
  intro l
  induction l with
  | nil => intro _; rfl
  | cons v rest ih =>
    intro h
    have hv : v.filename ≠ fn := h v (List.mem_cons_self v rest)
    simp only [increment, if_neg hv]
    rw [ih fun u hu => h u (List.mem_cons_of_mem v hu)]

/-- The counter loop bumps exactly the first matching record. -/
theorem increment_of_decomp (fld : CounterField) (fn : Str) :
    ∀ (l₁ : List VideoRecord) (m : VideoRecord) (l₂ : List VideoRecord),
      (∀ v ∈ l₁, v.filename ≠ fn) → m.filename = fn →
      increment fld fn (l₁ ++ m :: l₂) = l₁ ++ bumpField fld m :: l₂ := by
  intro l₁
  induction l₁ with
  | nil => intro m l₂ _ hm; simp [increment, hm]
  | cons v rest ih =>
    intro m l₂ h hm
    have hv : v.filename ≠ fn := h v (List.mem_cons_self v rest)
    have ih' := ih m l₂ (fun u hu => h u (List.mem_cons_of_mem v hu)) hm
    simp [increment, hv, ih']

/-- Bumping a counter does not change the record's filename. -/
theorem bumpField_filename (fld : CounterField) (v : VideoRecord) :
    (bumpField fld v).filename = v.filename := by
  cases fld <;> rfl

/-- C5: the `heart`/`view` loop bumps the selected field of the first
record whose filename matches by exactly one and leaves every other
record intact; running it twice bumps the field by exactly two; with no
matching record the store is persisted unchanged (a silent no-op). -/
theorem increment_spec (fld : CounterField) (fn : Str) (fs : FS) :
    (heart fn fs).store = increment .hearts fn fs.store ∧
    (view fn fs).store = increment .views fn fs.store ∧
    ((∀ v ∈ fs.store, v.filename ≠ fn) → increment fld fn fs.store = fs.store) ∧
    (∀ l₁ m l₂, fs.store = l₁ ++ m :: l₂ → (∀ v ∈ l₁, v.filename ≠ fn) →
      m.filename = fn →
      increment fld fn fs.store = l₁ ++ bumpField fld m :: l₂ ∧
      increment fld fn (increment fld fn fs.store) =
        l₁ ++ bumpField fld (bumpField fld m) :: l₂ ∧
      getField fld (bumpField fld (bumpField fld m)) = getField fld m + 2) := by
  refine ⟨rfl, rfl, increment_of_not_mem fld fn fs.store, ?_⟩
  intro l₁ m l₂ hdec h1 hm
  rw [hdec]
  have e1 := increment_of_decomp fld fn l₁ m l₂ h1 hm
  have hm2 : (bumpField fld m).filename = fn := by rw [bumpField_filename]; exact hm
  have e2 := increment_of_decomp fld fn l₁ (bumpField fld m) l₂ h1 hm2
  refine ⟨e1, by rw [e1, e2], ?_⟩
  cases fld <;> simp [bumpField, getField]

/-- Witness for C5: hearting `b.mp4` in a two-record store bumps the
second record once, doing it again bumps it twice, and the bumped record
has exactly two more hearts. -/
theorem increment_spec_witness :
    increment .hearts "b.mp4".data [recA, recB] = [recA, bumpField .hearts recB] ∧
    increment .hearts "b.mp4".data (increment .hearts "b.mp4".data [recA, recB]) =
      [recA, bumpField .hearts (bumpField .hearts recB)] ∧
    getField .hearts (bumpField .hearts (bumpField .hearts recB)) =
      getField .hearts recB + 2 :=
  (increment_spec .hearts "b.mp4".data ⟨[], [], [recA, recB]⟩).2.2.2
    [recA] recB [] rfl (by decide) (by decide)

/-- The `delete` partition loop accumulates, in order, exactly the
records whose filename does not match. -/
theorem deleteScan_foldl (fn : Str) :
    ∀ (l : List VideoRecord) (d : Option VideoRecord) (acc : List VideoRecord),
      (List.foldl (deleteStep fn) (d, acc) l).2 =
        acc ++ l.filter (fun v => !decide (v.filename = fn)) := by
  intro l
  induction l with
  | nil => intro d acc; simp
  | cons v rest ih =>
    intro d acc
    by_cases hv : v.filename = fn
    · simp [deleteStep, hv, ih]
    · simp [deleteStep, hv, ih]

/-- Records whose filename all differ from `fn` are all kept by the
deletion filter. -/
theorem filter_ne_eq_self (fn : Str) (l : List VideoRecord)
    (hl : ∀ v ∈ l, v.filename ≠ fn) :
    l.filter (fun v => !decide (v.filename = fn)) = l := by
  apply List.filter_eq_self.mpr
  intro v hv
  simp [hl v hv]

/-- The store `delete` persists is the filtered store, whatever the
file-removal branches later do to the directories. -/
theorem delete_store (fn : Str) (fs : FS) :
    (delete fn fs).store = fs.store.filter (fun v => !decide (v.filename = fn)) := by
  have h2 : (deleteScan fn fs.store).2 =
      fs.store.filter (fun v => !decide (v.filename = fn)) :=
    deleteScan_foldl fn fs.store none []
  simp only [delete]
  cases hd : (deleteScan fn fs.store).1 with
  | none => exact h2
  | some dv =>
    dsimp only
    split
    · exact h2
    · exact h2

/-- C1: when at most one record matches (the store's unique-filename
invariant), `delete` partitions the store into the first matching record
and the rest and persists the rest in their original order; with no
matching record the persisted store equals the original record list. -/
theorem delete_partitions (fn : Str) (fs : FS)
    (h : fs.store.countP (fun v => decide (v.filename = fn)) ≤ 1) :
    ((∀ v ∈ fs.store, v.filename ≠ fn) → (delete fn fs).store = fs.store) ∧
    (∀ l₁ m l₂, fs.store = l₁ ++ m :: l₂ → (∀ v ∈ l₁, v.filename ≠ fn) →
      m.filename = fn → (delete fn fs).store = l₁ ++ l₂) := by
  constructor
  · intro hnone
    rw [delete_store]
    exact filter_ne_eq_self fn fs.store hnone
  · intro l₁ m l₂ hdec h1 hm
    rw [delete_store, hdec]
    have hcount : (l₂.countP (fun v => decide (v.filename = fn))) = 0 := by
      rw [hdec] at h
      simp [List.countP_append, List.countP_cons, hm] at h
      omega
    have h2 : ∀ v ∈ l₂, v.filename ≠ fn := by
      intro v hv
      have := List.countP_eq_zero.mp hcount v hv
      simpa using this
    rw [List.filter_append]
    have e2 : (m :: l₂).filter (fun v => !decide (v.filename = fn)) = l₂ := by
      rw [List.filter_cons]
      have hmf : (!decide (m.filename = fn)) = false := by simp [hm]
      rw [hmf]
      simpa using filter_ne_eq_self fn l₂ h2
    rw [e2, filter_ne_eq_self fn l₁ h1]

/-- Witness for C1: deleting `a.mp4` from a two-record store persists
exactly the other record. -/
theorem delete_partitions_witness :
    (delete "a.mp4".data ⟨[], [], [recA, recB]⟩).store = [recB] :=
  (delete_partitions "a.mp4".data ⟨[], [], [recA, recB]⟩ (by decide)).2
    [] recA [recB] rfl (by decide) (by decide)

/-- The search predicate, read back as the substring conditions of the
spec. -/
theorem searchMatch_iff (s : Str) (v : VideoRecord) :
    searchMatch s v = true ↔
      (s <:+: lower v.title ∨ s <:+: lower v.description ∨ s <:+: lower v.filename) := by
  simp [searchMatch, strContains, Bool.or_eq_true, or_assoc]

/-- C6: with a non-empty (lowercased) search string, the filter step of
the gallery listing keeps exactly the decorated records in which the
lowercased search term occurs as a substring of the lowercased title, or
of the lowercased description, or of the lowercased filename. -/
theorem gallery_filter_spec (fmt : Str → Str) (l : List VideoRecord)
    (rawSearch : Str) (w : VideoRecord × Str)
    (h : lower rawSearch ≠ []) :
    w ∈ filterStep (lower rawSearch) (l.map (attachDate fmt)) ↔
      (∃ v ∈ l, attachDate fmt v = w) ∧
      (lower rawSearch <:+: lower w.1.title ∨
        lower rawSearch <:+: lower w.1.description ∨
        lower rawSearch <:+: lower w.1.filename) := by
  rw [filterStep, if_neg h]
  rw [List.mem_filter, List.mem_map, searchMatch_iff]

/-- Witness for C6: `search=beach` keeps the record titled "Beach Day"
and drops the record titled "Mountain Hike" whose description and
filename also lack "beach". -/
theorem gallery_filter_spec_witness :
    attachDate (fun s => s)
        ⟨"clip1.mp4".data, "Beach Day".data, "fun at the sea".data, [],
          "clip1.jpg".data, 0, 0, "2024-06-01T10:00:00".data⟩ ∈
      filterStep (lower "beach".data)
        ([⟨"clip1.mp4".data, "Beach Day".data, "fun at the sea".data, [],
            "clip1.jpg".data, 0, 0, "2024-06-01T10:00:00".data⟩,
          ⟨"clip2.mp4".data, "Mountain Hike".data, "alpine trail".data, [],
            "clip2.jpg".data, 0, 0, "2024-06-02T10:00:00".data⟩].map
          (attachDate (fun s => s))) ∧
    attachDate (fun s => s)
        ⟨"clip2.mp4".data, "Mountain Hike".data, "alpine trail".data, [],
          "clip2.jpg".data, 0, 0, "2024-06-02T10:00:00".data⟩ ∉
      filterStep (lower "beach".data)
        ([⟨"clip1.mp4".data, "Beach Day".data, "fun at the sea".data, [],
            "clip1.jpg".data, 0, 0, "2024-06-01T10:00:00".data⟩,
          ⟨"clip2.mp4".data, "Mountain Hike".data, "alpine trail".data, [],
            "clip2.jpg".data, 0, 0, "2024-06-02T10:00:00".data⟩].map
          (attachDate (fun s => s))) := by
  constructor
  · exact (gallery_filter_spec (fun s => s) _ "beach".data _ (by decide)).mpr
      ⟨⟨_, List.mem_cons_self _ _, rfl⟩, by decide⟩
  · intro hc
    have h := (gallery_filter_spec (fun s => s) _ "beach".data _ (by decide)).mp hc
    exact absurd h.2 (by decide)

/-- `strLeB` is total: of any two strings one is `<=` the other. -/
theorem strLeB_total : ∀ (a b : Str), (strLeB a b || strLeB b a) = true := by
  intro a
  induction a with
  | nil => intro b; simp [strLeB]
  | cons x xs ih =>
    intro b
    cases b with
    | nil => simp [strLeB]
    | cons y ys =>
      by_cases h1 : x.toNat < y.toNat
      · simp [strLeB, h1]
      · by_cases h2 : y.toNat < x.toNat
        · simp [strLeB, h1, h2]
        · simp [strLeB, h1, h2, ih ys]

/-- `strLeB` is transitive. -/
theorem strLeB_trans :
    ∀ (a b c : Str), strLeB a b = true → strLeB b c = true → strLeB a c = true := by
  intro a
  induction a with
  | nil => intro b c _ _; rfl
  | cons x xs ih =>
    intro b c hab hbc
    cases b with
    | nil => simp [strLeB] at hab
    | cons y ys =>
      cases c with
      | nil => simp [strLeB] at hbc
      | cons z zs =>
        by_cases h1 : x.toNat < y.toNat <;> by_cases h2 : y.toNat < x.toNat <;>
          by_cases h3 : y.toNat < z.toNat <;> by_cases h4 : z.toNat < y.toNat <;>
            simp [strLeB, h1, h2, h3, h4] at hab hbc ⊢ <;>
              first
                | omega
                | exact Or.inl (by omega)
                | exact Or.inr ⟨by omega, ih ys zs hab hbc⟩

/-- The four recognized sort keys each dispatch to the corresponding
stable sort (`reverse=True` is the stable descending order). -/
theorem sortStep_newest (l : List (VideoRecord × Str)) :
    sortStep "newest".data l =
      l.mergeSort (fun a b => strLeB b.1.uploaded_at a.1.uploaded_at) := rfl

theorem sortStep_oldest (l : List (VideoRecord × Str)) :
    sortStep "oldest".data l =
      l.mergeSort (fun a b => strLeB a.1.uploaded_at b.1.uploaded_at) := rfl

theorem sortStep_views (l : List (VideoRecord × Str)) :
    sortStep "views".data l = l.mergeSort (fun a b => decide (b.1.views ≤ a.1.views)) := rfl

theorem sortStep_hearts (l : List (VideoRecord × Str)) :
    sortStep "hearts".data l = l.mergeSort (fun a b => decide (b.1.hearts ≤ a.1.hearts)) := rfl

/-- Every branch of the sort dispatch permutes its input. -/
theorem sortStep_perm (sort : Str) (l : List (VideoRecord × Str)) :
    (sortStep sort l).Perm l := by
  unfold sortStep
  repeat' split
  any_goals exact List.mergeSort_perm l _
  exact List.Perm.refl l

/-- C7: the gallery sort orders `newest` by `uploaded_at` descending
(and `newest` is the route's default), `oldest` ascending, `views` by
views descending, `hearts` by hearts descending — each a permutation of
the filtered list — while an unrecognized sort key leaves the filtered
order unchanged. -/
theorem gallery_sort_spec (l : List (VideoRecord × Str)) (sort : Str) :
    ((sortStep "newest".data l).Perm l ∧
      (sortStep "newest".data l).Pairwise
        (fun a b => strLeB b.1.uploaded_at a.1.uploaded_at = true)) ∧
    ((sortStep "oldest".data l).Perm l ∧
      (sortStep "oldest".data l).Pairwise
        (fun a b => strLeB a.1.uploaded_at b.1.uploaded_at = true)) ∧
    ((sortStep "views".data l).Perm l ∧
      (sortStep "views".data l).Pairwise (fun a b => b.1.views ≤ a.1.views)) ∧
    ((sortStep "hearts".data l).Perm l ∧
      (sortStep "hearts".data l).Pairwise (fun a b => b.1.hearts ≤ a.1.hearts)) ∧
    (sort ∉ ["newest".data, "oldest".data, "views".data, "hearts".data] →
      sortStep sort l = l) ∧
    (∀ (fmt : Str → Str) (rawSearch : Str) (fs : FS),
      (index fmt rawSearch none fs).1.1 =
        sortStep "newest".data
          (filterStep (lower rawSearch) (fs.store.map (attachDate fmt)))) := by
  refine ⟨⟨sortStep_perm _ l, ?_⟩, ⟨sortStep_perm _ l, ?_⟩, ⟨sortStep_perm _ l, ?_⟩,
    ⟨sortStep_perm _ l, ?_⟩, ?_, fun fmt rawSearch fs => rfl⟩
  · rw [sortStep_newest]
    exact @List.sorted_mergeSort _
      (fun a b => strLeB b.1.uploaded_at a.1.uploaded_at)
      (fun a b c hab hbc =>
        strLeB_trans c.1.uploaded_at b.1.uploaded_at a.1.uploaded_at hbc hab)
      (fun a b => strLeB_total b.1.uploaded_at a.1.uploaded_at) l
  · rw [sortStep_oldest]
    exact @List.sorted_mergeSort _
      (fun a b => strLeB a.1.uploaded_at b.1.uploaded_at)
      (fun a b c hab hbc =>
        strLeB_trans a.1.uploaded_at b.1.uploaded_at c.1.uploaded_at hab hbc)
      (fun a b => strLeB_total a.1.uploaded_at b.1.uploaded_at) l
  · rw [sortStep_views]
    refine List.Pairwise.imp (fun h => of_decide_eq_true h) ?_
    exact @List.sorted_mergeSort _
      (fun a b => decide (b.1.views ≤ a.1.views))
      (fun a b c hab hbc => by simp only [decide_eq_true_eq] at *; omega)
      (fun a b => by simp only [Bool.or_eq_true, decide_eq_true_eq]; omega) l
  · rw [sortStep_hearts]
    refine List.Pairwise.imp (fun h => of_decide_eq_true h) ?_
    exact @List.sorted_mergeSort _
      (fun a b => decide (b.1.hearts ≤ a.1.hearts))
      (fun a b c hab hbc => by simp only [decide_eq_true_eq] at *; omega)
      (fun a b => by simp only [Bool.or_eq_true, decide_eq_true_eq]; omega) l
  · intro h
    have h1 : ¬(sort = "newest".data) := fun e => h (by simp [e])
    have h2 : ¬(sort = "oldest".data) := fun e => h (by simp [e])
    have h3 : ¬(sort = "views".data) := fun e => h (by simp [e])
    have h4 : ¬(sort = "hearts".data) := fun e => h (by simp [e])
    simp [sortStep, h1, h2, h3, h4]

/-- Witness for C7: the unrecognized key `zzz` leaves a concrete
two-element list untouched, while `newest` still permutes it. -/
theorem gallery_sort_spec_witness :
    sortStep "zzz".data [(recA, "d1".data), (recB, "d2".data)] =
      [(recA, "d1".data), (recB, "d2".data)] ∧
    (sortStep "newest".data [(recA, "d1".data), (recB, "d2".data)]).Perm
      [(recA, "d1".data), (recB, "d2".data)] :=
  ⟨(gallery_sort_spec [(recA, "d1".data), (recB, "d2".data)] "zzz".data).2.2.2.2.1
    (by decide),
   (gallery_sort_spec [(recA, "d1".data), (recB, "d2".data)] "zzz".data).1.1⟩

/-- The playlist list is sorted ascending by the string order. -/
theorem playlistsOf_sorted (dec : List (VideoRecord × Str)) :
    (playlistsOf dec).Sorted (fun a b => strLeB a b = true) :=
  @List.sorted_mergeSort _ strLeB strLeB_trans strLeB_total _

/-- The playlist list has no duplicates. -/
theorem playlistsOf_nodup (dec : List (VideoRecord × Str)) :
    (playlistsOf dec).Nodup :=
  (List.mergeSort_perm _ _).nodup_iff.mpr (List.nodup_dedup _)

/-- The playlist list holds exactly the non-empty playlist values of the
decorated records. -/
theorem playlistsOf_mem (dec : List (VideoRecord × Str)) (p : Str) :
    p ∈ playlistsOf dec ↔ p ≠ [] ∧ ∃ w ∈ dec, w.1.playlist = p := by
  unfold playlistsOf
  rw [(List.mergeSort_perm _ _).mem_iff, List.mem_dedup, List.mem_filter]
  simp only [List.mem_map, Bool.not_eq_true', List.isEmpty_eq_false_iff_exists_mem]
  constructor
  · rintro ⟨⟨w, hw, hwp⟩, hne⟩
    exact ⟨(by rintro rfl; rcases hne with ⟨c, hc⟩; cases hc), w, hw, hwp⟩
  · rintro ⟨hne, w, hw, hwp⟩
    refine ⟨⟨w, hw, hwp⟩, ?_⟩
    cases p with
    | nil => exact absurd rfl hne
    | cons c cs => exact ⟨c, List.mem_cons_self c cs⟩

/-- C8: the gallery listing's playlist navigation list is the set of
distinct non-empty playlist values occurring in the filtered records,
sorted ascending lexicographically. -/
theorem gallery_playlists_spec (fmt : Str → Str) (rawSearch : Str)
    (sortArg : Option Str) (fs : FS) :
    ((index fmt rawSearch sortArg fs).1.2).Sorted (fun a b => strLeB a b = true) ∧
    ((index fmt rawSearch sortArg fs).1.2).Nodup ∧
    (∀ p : Str, p ∈ (index fmt rawSearch sortArg fs).1.2 ↔
      (p ≠ [] ∧ ∃ w ∈ filterStep (lower rawSearch) (fs.store.map (attachDate fmt)),
        w.1.playlist = p)) := by
  have hidx : (index fmt rawSearch sortArg fs).1.2 =
      playlistsOf (sortStep (sortArg.getD "newest".data)
        (filterStep (lower rawSearch) (fs.store.map (attachDate fmt)))) := rfl
  have hperm := sortStep_perm (sortArg.getD "newest".data)
    (filterStep (lower rawSearch) (fs.store.map (attachDate fmt)))
  refine ⟨hidx ▸ playlistsOf_sorted _, hidx ▸ playlistsOf_nodup _, fun p => ?_⟩
  rw [hidx, playlistsOf_mem]
  simp only [hperm.mem_iff]

/-- The first element surviving `dropWhile` fails the predicate. -/
theorem dropWhile_head_false {α : Type} (q : α → Bool) :
    ∀ (l : List α) (c : α) (rest : List α),
      l.dropWhile q = c :: rest → q c = false := by
  intro l
  induction l with
  | nil => intro c rest h; cases h
  | cons x xs ih =>
    intro c rest h
    rw [List.dropWhile_cons] at h
    by_cases hx : q x = true
    · rw [if_pos hx] at h
      exact ih c rest h
    · rw [if_neg hx] at h
      injection h with h1 h2
      subst h1
      simpa using hx

/-- Splitting off the text after the last dot reconstructs the name, and
that text holds no further dot. -/
theorem rsplitDot_decomp (p : Str) (h : '.' ∈ p) :
    p = rsplitDotHead p ++ '.' :: rsplitDotTail p ∧ '.' ∉ rsplitDotTail p := by
  have hc : p.contains '.' = true := List.elem_iff.mpr h
  have hmemrev : '.' ∈ p.reverse := List.mem_reverse.mpr h
  have hsplit := List.takeWhile_append_dropWhile (fun c => !(c == '.')) p.reverse
  have hdnil : p.reverse.dropWhile (fun c => !(c == '.')) ≠ [] := by
    intro hnil
    have := List.dropWhile_eq_nil_iff.mp hnil '.' hmemrev
    simp at this
  rcases hd : p.reverse.dropWhile (fun c => !(c == '.')) with _ | ⟨c, d'⟩
  · exact absurd hd hdnil
  have hcdot : c = '.' := by
    have := dropWhile_head_false (fun c => !(c == '.')) p.reverse c d' hd
    simpa using this
  subst hcdot
  constructor
  · rw [rsplitDotHead, if_pos hc, rsplitDotTail, hd]
    conv_lhs => rw [← p.reverse_reverse, ← hsplit]
    rw [hd]
    simp
  · rw [rsplitDotTail]
    intro hmem
    have hmem' : '.' ∈ p.reverse.takeWhile (fun c => !(c == '.')) :=
      List.mem_reverse.mp hmem
    have := List.mem_takeWhile_imp hmem'
    simp at this

/-- C9: a successful upload stores a record whose thumbnail is the video
name with its extension replaced by `.jpg` when frame extraction
succeeds, and the shared default name when it fails — in which case no
thumbnail file is written: the thumbnail directory is unchanged. -/
theorem upload_thumbnail_spec (secure : Str → Str) (frameOk : Bool) (now : Str)
    (req : UploadRequest) (fs : FS)
    (h1 : req.hasFile = true) (h2 : req.filename ≠ [])
    (h3 : allowed_file req.filename = true)
    (h4 : ¬((req.sizeBytes : ℚ) / (1024 * 1024) > MAX_FILE_SIZE_MB)) :
    ((upload secure frameOk now req fs).1 = .redirectIndex ∧
      (upload secure frameOk now req fs).2.store = fs.store ++
        [{ filename := resolve_collision fs.uploads (secure req.filename),
           title := (if strip req.title = [] then
             resolve_collision fs.uploads (secure req.filename) else strip req.title),
           description := strip req.description, playlist := strip req.playlist,
           thumbnail := (if frameOk then
             thumbnailName (resolve_collision fs.uploads (secure req.filename))
             else "default.jpg".data),
           hearts := 0, views := 0, uploaded_at := now }] ∧
      (upload secure frameOk now req fs).2.thumbs = (if frameOk then
        fs.thumbs ++ [thumbnailName (resolve_collision fs.uploads (secure req.filename))]
        else fs.thumbs)) ∧
    ('.' ∈ resolve_collision fs.uploads (secure req.filename) →
      ∃ stem rest,
        resolve_collision fs.uploads (secure req.filename) = stem ++ '.' :: rest ∧
        '.' ∉ rest ∧
        thumbnailName (resolve_collision fs.uploads (secure req.filename)) =
          stem ++ ".jpg".data) := by
  constructor
  · cases frameOk <;>
      simp [upload, h1, h2, h3, h4, generate_thumbnail]
  · intro hdot
    exact ⟨rsplitDotHead _, rsplitDotTail _, (rsplitDot_decomp _ hdot).1,
      (rsplitDot_decomp _ hdot).2, rfl⟩

/-- Witness for C9: a successful `clip.mp4` upload with failed frame
extraction stores the default thumbnail name and leaves the thumbnail
directory untouched. -/
theorem upload_thumbnail_spec_witness :
    ((upload (fun s => s) false "2024-01-01T00:00:00".data
        ⟨true, "clip.mp4".data, 10, [], [], []⟩ ⟨[], [], []⟩).1 = .redirectIndex ∧
      (upload (fun s => s) false "2024-01-01T00:00:00".data
        ⟨true, "clip.mp4".data, 10, [], [], []⟩ ⟨[], [], []⟩).2.store =
        (⟨[], [], []⟩ : FS).store ++
        [{ filename := resolve_collision (FS.mk [] [] []).uploads
             ((fun s => s) (UploadRequest.mk true "clip.mp4".data 10 [] [] []).filename),
           title := (if strip (UploadRequest.mk true "clip.mp4".data 10 [] [] []).title = [] then
             resolve_collision (FS.mk [] [] []).uploads
               ((fun s => s) (UploadRequest.mk true "clip.mp4".data 10 [] [] []).filename)
             else strip (UploadRequest.mk true "clip.mp4".data 10 [] [] []).title),
           description := strip (UploadRequest.mk true "clip.mp4".data 10 [] [] []).description,
           playlist := strip (UploadRequest.mk true "clip.mp4".data 10 [] [] []).playlist,
           thumbnail := (if false then
             thumbnailName (resolve_collision (FS.mk [] [] []).uploads
               ((fun s => s) (UploadRequest.mk true "clip.mp4".data 10 [] [] []).filename))
             else "default.jpg".data),
           hearts := 0, views := 0, uploaded_at := "2024-01-01T00:00:00".data }] ∧
      (upload (fun s => s) false "2024-01-01T00:00:00".data
        ⟨true, "clip.mp4".data, 10, [], [], []⟩ ⟨[], [], []⟩).2.thumbs = (if false then
        (FS.mk [] [] []).thumbs ++
          [thumbnailName (resolve_collision (FS.mk [] [] []).uploads
            ((fun s => s) (UploadRequest.mk true "clip.mp4".data 10 [] [] []).filename))]
        else (FS.mk [] [] []).thumbs)) ∧
    ('.' ∈ resolve_collision (FS.mk [] [] []).uploads
        ((fun s => s) (UploadRequest.mk true "clip.mp4".data 10 [] [] []).filename) →
      ∃ stem rest,
        resolve_collision (FS.mk [] [] []).uploads
          ((fun s => s) (UploadRequest.mk true "clip.mp4".data 10 [] [] []).filename) =
            stem ++ '.' :: rest ∧
        '.' ∉ rest ∧
        thumbnailName (resolve_collision (FS.mk [] [] []).uploads
          ((fun s => s) (UploadRequest.mk true "clip.mp4".data 10 [] [] []).filename)) =
            stem ++ ".jpg".data) :=
  upload_thumbnail_spec (fun s => s) false "2024-01-01T00:00:00".data
    ⟨true, "clip.mp4".data, 10, [], [], []⟩ ⟨[], [], []⟩ rfl (by decide) (by decide)
    (by norm_num [MAX_FILE_SIZE_MB])

/-- Decimal digit list of `n`, most significant first, by value recursion;
`toDigitsCore_eq_repDigits` shows it agrees with the fuelled core
implementation behind `Nat.toDigits`. -/
def repDigits (n : Nat) : Str :=
  if _h : n < 10 then [Nat.digitChar n]
  else repDigits (n / 10) ++ [Nat.digitChar (n % 10)]
decreasing_by exact Nat.div_lt_self (by omega) (by omega)

/-- The fuelled digit accumulator equals the structural digit list once
the fuel covers the number of digits. -/
theorem toDigitsCore_eq_repDigits :
    ∀ (f n : Nat) (ds : List Char), 0 < f → n < 10 ^ f →
      Nat.toDigitsCore 10 f n ds = repDigits n ++ ds := by
  intro f
  induction f with
  | zero => intro n ds h _; omega
  | succ f ih =>
    intro n ds _ hlt
    simp only [Nat.toDigitsCore]
    by_cases h0 : n / 10 = 0
    · rw [if_pos h0]
      have hn : n < 10 := by omega
      rw [repDigits, dif_pos hn, Nat.mod_eq_of_lt hn]
      rfl
    · rw [if_neg h0]
      have hf : 0 < f := by
        by_contra hf0
        have hz : f = 0 := by omega
        subst hz
        have : n < 10 := by simpa using hlt
        omega
      have hdiv : n / 10 < 10 ^ f := by
        rw [Nat.div_lt_iff_lt_mul (by norm_num)]
        calc n < 10 ^ (f + 1) := hlt
          _ = 10 ^ f * 10 := by ring
      rw [ih (n / 10) (Nat.digitChar (n % 10) :: ds) hf hdiv]
      conv_rhs => rw [repDigits]
      rw [dif_neg (by omega : ¬n < 10)]
      simp

/-- `Nat.toDigits 10` is the structural decimal digit list. -/
theorem toDigits_eq_repDigits (n : Nat) : Nat.toDigits 10 n = repDigits n := by
  show Nat.toDigitsCore 10 (n + 1) n [] = repDigits n
  have h1 : n < 10 ^ n := Nat.lt_pow_self (by norm_num) n
  have h2 : (10 : Nat) ^ n ≤ 10 ^ (n + 1) := Nat.pow_le_pow_right (by norm_num) (by omega)
  rw [toDigitsCore_eq_repDigits (n + 1) n [] (by omega) (by omega)]
  simp

/-- Horner evaluation of a decimal digit list. -/
def decodeDigits (l : Str) : Nat := l.foldl (fun a c => 10 * a + (c.toNat - 48)) 0

/-- Evaluating after appending one digit character. -/
theorem decode_append_single (l : Str) (c : Char) :
    decodeDigits (l ++ [c]) = 10 * decodeDigits l + (c.toNat - 48) := by
  simp [decodeDigits, List.foldl_append]

/-- The digit characters decode back to their digit. -/
theorem digitChar_toNat (d : Nat) (hd : d < 10) : (Nat.digitChar d).toNat - 48 = d := by
  interval_cases d <;> rfl

/-- Decimal digit lists evaluate back to the encoded number. -/
theorem decode_repDigits (n : Nat) : decodeDigits (repDigits n) = n := by
  induction n using Nat.strong_induction_on with
  | _ n ih =>
    by_cases hn : n < 10
    · rw [repDigits, dif_pos hn]
      have := digitChar_toNat n hn
      simp [decodeDigits, this]
    · rw [repDigits, dif_neg hn]
      rw [decode_append_single]
      rw [ih (n / 10) (Nat.div_lt_self (by omega) (by omega))]
      rw [digitChar_toNat (n % 10) (Nat.mod_lt _ (by omega))]
      omega

/-- The decimal representation used by the f-string is injective. -/
theorem decimalDigits_injective : Function.Injective decimalDigits := by
  intro m n h
  simp only [decimalDigits, toDigits_eq_repDigits] at h
  have := congrArg decodeDigits h
  simpa [decode_repDigits] using this

/-- Distinct counters produce distinct collision candidates. -/
theorem candName_injective (base ext : Str) :
    Function.Injective (candName base ext) := by
  intro i j h
  unfold candName at h
  have h1 := List.append_cancel_left (List.append_cancel_right h)
  injection h1 with _ h2
  exact decimalDigits_injective h2

/-- Among the first `uploads.length + 1` counters some candidate name is
absent from the directory: a directory of `n` names cannot hold `n + 1`
distinct candidates. -/
theorem exists_free_cand (uploads : List Str) (base ext : Str) :
    ∃ i, 1 ≤ i ∧ i < 1 + (uploads.length + 1) ∧ candName base ext i ∉ uploads := by
  by_contra hno
  push_neg at hno
  have hsub : (Finset.Icc 1 (uploads.length + 1)).image (candName base ext) ⊆
      uploads.toFinset := by
    intro x hx
    rcases Finset.mem_image.mp hx with ⟨i, hi, rfl⟩
    rcases Finset.mem_Icc.mp hi with ⟨ha, hb⟩
    exact List.mem_toFinset.mpr (hno i ha (by omega))
  have hcard := Finset.card_le_card hsub
  rw [Finset.card_image_of_injective _ (candName_injective base ext), Nat.card_Icc] at hcard
  have := List.toFinset_card_le uploads
  omega

/-- The collision loop returns a name absent from the directory as soon
as its current name is free or some candidate within its remaining fuel
is free. -/
theorem findFreeName_not_mem (uploads : List Str) (base ext : Str) :
    ∀ (fuel counter : Nat) (filename : Str),
      (filename ∉ uploads ∨
        ∃ i, counter ≤ i ∧ i < counter + fuel ∧ candName base ext i ∉ uploads) →
      findFreeName uploads base ext fuel counter filename ∉ uploads := by
  intro fuel
  induction fuel with
  | zero =>
    intro counter filename h
    rcases h with h | ⟨i, hi1, hi2, _⟩
    · exact h
    · omega
  | succ fuel ih =>
    intro counter filename h
    simp only [findFreeName]
    by_cases hf : uploads.contains filename = true
    · rw [if_pos hf]
      apply ih (counter + 1)
      rcases h with h | ⟨i, hi1, hi2, hni⟩
      · exact absurd (List.elem_iff.mp hf) h
      · by_cases hic : i = counter
        · subst hic
          exact Or.inl hni
        · exact Or.inr ⟨i, by omega, by omega, hni⟩
    · rw [if_neg hf]
      intro hmem
      exact hf (List.elem_iff.mpr hmem)

/-- Collision resolution always returns a name not present in the upload
directory beforehand. -/
theorem resolve_collision_not_mem (uploads : List Str) (sanitized : Str) :
    resolve_collision uploads sanitized ∉ uploads := by
  simp only [resolve_collision]
  apply findFreeName_not_mem
  rcases exists_free_cand uploads (splitext sanitized).1 (splitext sanitized).2 with
    ⟨i, h1, h2, h3⟩
  exact Or.inr ⟨i, h1, h2, h3⟩

/-- C2: collision resolution appends `_1`, `_2`, … before the extension
until a free name is found, so the stored filename differs from every
name present in the upload directory before the upload; in particular a
second `clip.mp4` becomes `clip_1.mp4` and a third becomes
`clip_2.mp4`. -/
theorem upload_collision_resolution (uploads : List Str) (sanitized : Str) :
    resolve_collision uploads sanitized ∉ uploads ∧
    resolve_collision ["clip.mp4".data] "clip.mp4".data = "clip_1.mp4".data ∧
    resolve_collision ["clip.mp4".data, "clip_1.mp4".data] "clip.mp4".data =
      "clip_2.mp4".data :=
  ⟨resolve_collision_not_mem uploads sanitized, by decide, by decide⟩
